import Mathlib

/-!
# Verification of the FUSE in-memory filesystem (`src/FS.c`)

Shallow embedding of the core of `FS.c` (superblock with bitmaps, directory
tree, path resolution, read/write path, tree flattening) and proofs about the
spec's claims.

Modelling conventions, used throughout:

* C `char` bytes are modelled as `Nat`; the bitmap characters `'0'` / `'1'`
  are the byte values `48` / `49`.
* A C string is represented by the list of its bytes *before* the
  terminating NUL.  All strings handled by the program (paths, written data)
  are NUL-free, so `strlen` is `List.length`, and `strcpy src` writes
  `src ++ [0]`.
* The global `superblock spblock` is a C global and therefore
  zero-initialised; its `datablocks` arena is modelled sparsely as a list of
  write records `(offset, bytes)`, newest first, with unwritten bytes
  reading as `0`.
* `malloc`ed memory is modelled as zero-filled.  (This matters once, in
  `mywrite`: `strncpy(cpystr, buf, len1-1)` does not NUL-terminate when the
  source is longer, and the code then treats `cpystr` as a string; the model
  reads the byte after the copied prefix as `0`.)
* Process termination (`exit(1)` in `filetype_from_path` on a path without
  a leading `/`, or the segfault from `strrchr` returning NULL) is modelled
  as `Except.error ()`; all other outcomes are `Except.ok`.
-/

namespace FS

/-- `block_size` (FS.c:60). -/
def blockSize : Nat := 1024

/-- ASCII `/`. -/
def slash : Nat := 47

/-- The byte value of the character `'0'` used in the bitmaps. -/
def c0 : Nat := 48

/-- The byte value of the character `'1'` used in the bitmaps. -/
def c1 : Nat := 49

/-- `-ENOENT` (errno 2). -/
def eNOENT : Int := -2

/-- `-ENOTEMPTY` (errno 39). -/
def eNOTEMPTY : Int := -39

/-- A C string: the bytes before the terminating NUL (NUL-free by
convention, see the header comment). -/
abbrev Str := List Nat

/-- `strlen` on the model of a NUL-free C string. -/
def strlen (s : Str) : Nat := s.length

/-! ## The data arena

`spblock.datablocks` (FS.c:85) is a `char[1024*100]` global, zero at program
start.  We model it as a journal of writes, newest first: `(off, bytes)`
means `bytes` were written starting at absolute offset `off`. -/

/-- Sparse model of the `datablocks` byte arena. -/
abbrev Arena := List (Nat × List Nat)

/-- Read one byte of the arena: the newest write covering the offset wins;
unwritten bytes are `0` (zero-initialised global). -/
def readByte : Arena → Nat → Nat
  | [], _ => 0
  | (off, bytes) :: rest, n =>
      if off ≤ n ∧ n < off + bytes.length then bytes.getD (n - off) 0
      else readByte rest n

/-- Record a write of `bytes` starting at offset `off`. -/
def writeSeg (a : Arena) (off : Nat) (bytes : List Nat) : Arena :=
  (off, bytes) :: a

/-- Fuel-bounded scan for the terminating NUL, as `strlen` does on the raw
arena.  The fuel only exists to make the definition total; in every use the
scan hits a `0` byte well before the fuel runs out (the arena is
zero-initialised). -/
def cstrlenF : Nat → Arena → Nat → Nat
  | 0, _, _ => 0
  | fuel + 1, a, off => if readByte a off = 0 then 0 else cstrlenF fuel a (off + 1) + 1

/-- `strlen` of the C string starting at arena offset `off`. -/
def cstrlen (a : Arena) (off : Nat) : Nat := cstrlenF 204800 a off

/-- Read at most `n` bytes starting at `off`, stopping at a NUL byte: the
source-side behaviour of `strncat(dst, src, n)` (it copies from `src` up to
`n` bytes but stops at `src`'s terminator). -/
def cstrTake : Nat → Arena → Nat → List Nat
  | 0, _, _ => []
  | n + 1, a, off =>
      if readByte a off = 0 then [] else readByte a off :: cstrTake n a (off + 1)

/-- `strcpy(&arena[off], src)`: writes the bytes of `src` and a terminator. -/
def strcpyAt (a : Arena) (off : Nat) (src : Str) : Arena :=
  writeSeg a off (src ++ [0])

/-- `strcat(&arena[off], src)`: append `src` (and a terminator) at the
current terminator of the string starting at `off`. -/
def strcatAt (a : Arena) (off : Nat) (src : Str) : Arena :=
  writeSeg a (off + cstrlen a off) (src ++ [0])

/-! ## Superblock (FS.c:83-88)

`data_bitmap` and `inode_bitmap` are `char[105]`; `initialize_superblock`
(FS.c:244-249) memsets only the first 100 bytes to `'0'`, the remaining 5
stay zero-initialised. -/

/-- The `superblock` struct.  The `datablocks` arena is the `Arena` above. -/
structure Superblock where
  datablocks : Arena
  data_bitmap : List Nat
  inode_bitmap : List Nat
deriving Repr

/-- `initialize_superblock` (FS.c:244-249) on the zero-initialised global. -/
def init_superblock : Superblock :=
  { datablocks := []
    data_bitmap := List.replicate 100 c0 ++ List.replicate 5 0
    inode_bitmap := List.replicate 100 c0 ++ List.replicate 5 0 }

/-- `find_free_inode` (FS.c:673-683).

```c
for (int i = 2; i < 100; i++) {
    if (spblock.inode_bitmap[i] == '0') { spblock.inode_bitmap[i] = '1'; }
    return i;                 // inside the loop body, after the if
}
```
The `return i` sits inside the `for` body (but outside the `if`), so the
body returns on its very first iteration: the function always returns `2`,
marking slot 2 only when it happened to be free.  The model is that single
iteration (`i = 2`); the loop never advances and the function cannot fall
off its end. -/
def find_free_inode (sb : Superblock) : Superblock × Int :=
  let sb' :=
    if sb.inode_bitmap.getD 2 0 = c0 then
      { sb with inode_bitmap := sb.inode_bitmap.set 2 c1 }
    else sb
  (sb', 2)

/-- `find_free_db` (FS.c:705-715).

```c
for (int i = 1; i < 100; i++) {
    if (spblock.inode_bitmap[i] == '0') { spblock.inode_bitmap[i] = '1'; }
    return i;                 // inside the loop body, after the if
}
```
Same misplaced `return` as `find_free_inode` (the body returns on the first
iteration, `i = 1`), and the function reads and marks the *inode* bitmap,
not the data bitmap. -/
def find_free_db (sb : Superblock) : Superblock × Int :=
  let sb' :=
    if sb.inode_bitmap.getD 1 0 = c0 then
      { sb with inode_bitmap := sb.inode_bitmap.set 1 c1 }
    else sb
  (sb', 1)

/-! ## The directory tree (`filetype`, FS.c:192-215)

A `filetype` is a tree node.  We model the fields the core engine reads and
writes: `valid`, `path`, `name`, `type`, `size`, `blocks`, `datablocks`,
`num_links` and the `children` array (`num_children` is its length — the C
code keeps the two in sync and always iterates `children[0..num_children)`).
The timestamp / permission / owner fields are only ever written from the
environment (`time(NULL)`, `getuid()` …) and never influence any claim, so
they are not modelled.  The `parent` back-pointer cannot exist in a tree of
values; an entry is instead identified by its index path from the root
(`nodeAt` below), which also captures "position within the parent's child
list". -/

inductive FNode where
  | mk (valid : Nat) (path : Str) (name : Str) (ftype : Str) (size : Nat)
       (blocks : Nat) (datablocks : List Nat) (num_links : Nat)
       (children : List FNode)
deriving Repr

def FNode.valid : FNode → Nat
  | .mk v _ _ _ _ _ _ _ _ => v

def FNode.path : FNode → Str
  | .mk _ p _ _ _ _ _ _ _ => p

def FNode.name : FNode → Str
  | .mk _ _ nm _ _ _ _ _ _ => nm

def FNode.ftype : FNode → Str
  | .mk _ _ _ t _ _ _ _ _ => t

def FNode.size : FNode → Nat
  | .mk _ _ _ _ sz _ _ _ _ => sz

def FNode.blocks : FNode → Nat
  | .mk _ _ _ _ _ b _ _ _ => b

def FNode.datablocks : FNode → List Nat
  | .mk _ _ _ _ _ _ db _ _ => db

def FNode.num_links : FNode → Nat
  | .mk _ _ _ _ _ _ _ nl _ => nl

def FNode.children : FNode → List FNode
  | .mk _ _ _ _ _ _ _ _ cs => cs

/-- Overwrite `name` and `path` (what `myrename` does in place). -/
def FNode.setNamePath : FNode → Str → Str → FNode
  | .mk v _ _ t sz b db nl cs, nm, p => .mk v p nm t sz b db nl cs

/-- Overwrite `size` and `blocks` (what `mywrite` does in place). -/
def FNode.setSizeBlocks : FNode → Nat → Nat → FNode
  | .mk v p nm t _ _ db nl cs, sz, b => .mk v p nm t sz b db nl cs

/-- Overwrite the `children` array. -/
def FNode.setChildren : FNode → List FNode → FNode
  | .mk v p nm t sz b db nl _, cs => .mk v p nm t sz b db nl cs

/-- The node-local (non-recursive) data of an entry: every modelled field
except the subtrees hanging below it, with `children` abstracted to its
length (the `num_children` field of the C struct). -/
def FNode.shallow (n : FNode) : Nat × Str × Str × Str × Nat × Nat × List Nat × Nat × Nat :=
  (n.valid, n.path, n.name, n.ftype, n.size, n.blocks, n.datablocks, n.num_links,
   n.children.length)

/-- Entry at an index path: `nodeAt n [i, j]` is `n.children[i].children[j]`. -/
def nodeAt : FNode → List Nat → Option FNode
  | n, [] => some n
  | n, i :: p => match n.children.get? i with
      | some c => nodeAt c p
      | none => none

/-! ## Path resolution (`filetype_from_path`, FS.c:581-651) -/

/-- The `while (strlen(path_name) != 0)` loop of `filetype_from_path`
(FS.c:613-650): split off the segment before the first `/` (`strchr`,
`strncpy`), scan the current node's children in order for the first
`strcmp` match; on an intermediate segment descend into the match, on the
final segment (`strchr` returned NULL) return the match; no match returns
NULL.  When `path_name` becomes empty the C function falls off its end
without a `return` (only reachable for paths like `"//"`, undefined
behaviour); the model returns NULL there. -/
def ftpLoopF : Nat → FNode → Str → Option FNode
  | 0, _, _ => none
  | fuel + 1, cur, rest =>
      if rest.length = 0 then none
      else
        let seg := rest.takeWhile (fun c => c != slash)
        if seg.length = rest.length then
          match cur.children.find? (fun ch => ch.name == seg) with
          | some ch => some ch
          | none => none
        else
          match cur.children.find? (fun ch => ch.name == seg) with
          | some ch => ftpLoopF fuel ch (rest.drop (seg.length + 1))
          | none => none

/-- The loop, started with enough fuel: each iteration consumes at least
`seg.length + 1 ≥ 1` characters of `rest`, so `rest.length` iterations
always suffice and the fuel pattern is exact (at fuel 0 the remaining path
is empty, which is the fall-off-the-end case returning NULL). -/
def ftpLoop (cur : FNode) (rest : Str) : Option FNode :=
  ftpLoopF rest.length cur rest

/-- `filetype_from_path` (FS.c:581-651).  `.error ()` is the
`printf("INCORRECT PATH"); exit(1)` on a path without a leading `/`;
`.ok none` is a NULL result. -/
def filetype_from_path (root : FNode) (path : Str) : Except Unit (Option FNode) :=
  if path = [slash] then .ok (some root)
  else if path.headD 0 ≠ slash then .error ()
  else
    let p1 := path.drop 1
    let p2 := if p1.getLast? = some slash then p1.dropLast else p1
    .ok (ftpLoop root p2)

/-- `myopen` (FS.c:1319-1329): resolves the path and then returns 0
unconditionally, discarding the result. -/
def myopen (root : FNode) (path : Str) : Except Unit Int :=
  match filetype_from_path root path with
  | .error e => .error e
  | .ok _ => .ok 0

/-! ## In-place mutation through a resolved pointer

`filetype_from_path` returns a pointer and the handlers mutate the pointee
in place.  In the functional model the same traversal rebuilds the tree
with the resolved node replaced: `ftpUpd` follows exactly the
segment/first-match steps of `ftpLoop`, and `updPath` the preprocessing of
`filetype_from_path`. -/

/-- Mutate the first child whose name matches `seg` (the C handlers scan
`children[0..num_children)` and mutate the first `strcmp` match through
its pointer, leaving every other element of the array untouched). -/
def updFirst (seg : Str) (g : FNode → FNode) : List FNode → List FNode
  | [] => []
  | c :: cs => if c.name == seg then g c :: cs else c :: updFirst seg g cs

def ftpUpdF : Nat → FNode → Str → (FNode → FNode) → FNode
  | 0, cur, _, _ => cur
  | fuel + 1, cur, rest, f =>
      if rest.length = 0 then cur
      else
        let seg := rest.takeWhile (fun c => c != slash)
        if seg.length = rest.length then
          cur.setChildren (updFirst seg f cur.children)
        else
          cur.setChildren (updFirst seg
            (fun ch => ftpUpdF fuel ch (rest.drop (seg.length + 1)) f) cur.children)

/-- Rebuild the tree with the entry that `ftpLoop cur rest` resolves
replaced by `f` of it (unchanged when resolution fails, in which case the
handlers never reach the mutation).  Same exact fuel pattern as
`ftpLoop`. -/
def ftpUpd (cur : FNode) (rest : Str) (f : FNode → FNode) : FNode :=
  ftpUpdF rest.length cur rest f

/-- Apply `f` in place at the entry `filetype_from_path root path`
resolves. -/
def updPath (root : FNode) (path : Str) (f : FNode → FNode) : FNode :=
  if path = [slash] then f root
  else
    let p1 := path.drop 1
    let p2 := if p1.getLast? = some slash then p1.dropLast else p1
    ftpUpd root p2 f

/-- The segment after the last `/` of a path (`strrchr(p,'/') + 1`);
only meaningful when the path contains a `/`. -/
def afterLastSlash (s : Str) : Str :=
  (s.reverse.takeWhile (fun c => c != slash)).reverse

/-- The part of a path before its last `/` (`*strrchr(p,'/') = '\0'`). -/
def beforeLastSlash (s : Str) : Str :=
  ((s.reverse.dropWhile (fun c => c != slash)).drop 1).reverse

/-- The bytes of `"file"`. -/
def fileT : Str := [102, 105, 108, 101]

/-- The bytes of `"directory"`. -/
def dirT : Str := [100, 105, 114, 101, 99, 116, 111, 114, 121]

/-! ## File read / write (`myread` FS.c:1370-1400, `mywrite` FS.c:1566-1611) -/

/-- The mutation `mywrite` performs on the resolved file and the
superblock (FS.c:1578-1607):

```c
if (file->size == 0) {
    strcpy(&spblock.datablocks[block_size * ((file->datablocks)[0])], buf);
    file->size = strlen(buf);  (file->blocks)++;
} else {
    int currblk = (file->blocks) - 1;
    int len1 = 1024 - (file->size % 1024);
    if (len1 >= strlen(buf)) {
        strcat(&spblock.datablocks[block_size * datablocks[currblk]], buf);
        file->size += strlen(buf);
    } else {
        char *cpystr = malloc(1024 * sizeof(char));
        strncpy(cpystr, buf, len1 - 1);
        strcat(&spblock.datablocks[block_size * datablocks[currblk]], cpystr);
        strcpy(cpystr, buf);
        strcpy(&spblock.datablocks[block_size * datablocks[currblk + 1]], (cpystr + len1 - 1));
        file->size += strlen(buf);  (file->blocks)++;
    }
}
```

`strncpy` with `len1 - 1 < strlen(buf)` copies exactly `len1 - 1` bytes
without a terminator; with the zero-filled-`malloc` convention `cpystr`
then reads as the string `buf.take (len1 - 1)`.  After the re-`strcpy`,
`cpystr + len1 - 1` is the string `buf.drop (len1 - 1)`. -/
def mywriteBody (file : FNode) (sb : Superblock) (buf : Str) : FNode × Superblock :=
  if file.size = 0 then
    (file.setSizeBlocks (strlen buf) (file.blocks + 1),
     { sb with datablocks :=
         strcpyAt sb.datablocks (blockSize * file.datablocks.getD 0 0) buf })
  else
    let currblk := file.blocks - 1
    let len1 := blockSize - file.size % blockSize
    if len1 ≥ strlen buf then
      (file.setSizeBlocks (file.size + strlen buf) file.blocks,
       { sb with datablocks :=
           strcatAt sb.datablocks (blockSize * file.datablocks.getD currblk 0) buf })
    else
      let a1 := strcatAt sb.datablocks (blockSize * file.datablocks.getD currblk 0)
                  (buf.take (len1 - 1))
      let a2 := strcpyAt a1 (blockSize * file.datablocks.getD (currblk + 1) 0)
                  (buf.drop (len1 - 1))
      (file.setSizeBlocks (file.size + strlen buf) (file.blocks + 1),
       { sb with datablocks := a2 })

/-- `mywrite` (FS.c:1566-1611): resolve the path (NULL ⇒ `-ENOENT`,
nothing changed), mutate the file in place as above, return
`strlen(buf)`. -/
def mywrite (root : FNode) (sb : Superblock) (path buf : Str) :
    Except Unit (Int × FNode × Superblock) :=
  match filetype_from_path root path with
  | .error e => .error e
  | .ok none => .ok (eNOENT, root, sb)
  | .ok (some file) =>
      let r := mywriteBody file sb buf
      .ok ((strlen buf : Nat), updPath root path (fun _ => r.1), r.2)

/-- The buffer `myread` produces (FS.c:1384-1397): `strncat` the first
`blocks - 1` data blocks with limit 1024 each, then the last block with
limit `size % 1024` (after the loop `i = blocks - 1`, and `i = 0` when
`blocks = 0` since the loop body never ran).  `strncat` stops at a NUL in
the source, which `cstrTake` mirrors. -/
def readBuf (file : FNode) (sb : Superblock) : Str :=
  (List.range (file.blocks - 1)).foldl
    (fun str i =>
      str ++ cstrTake blockSize sb.datablocks (blockSize * file.datablocks.getD i 0)) []
  ++ cstrTake (file.size % blockSize) sb.datablocks
       (blockSize * file.datablocks.getD (file.blocks - 1) 0)

/-- `myread` (FS.c:1370-1400): resolve (NULL ⇒ `-ENOENT`), copy the
concatenation into the caller's buffer, and report `file->size` as the
number of bytes read. -/
def myread (root : FNode) (sb : Superblock) (path : Str) :
    Except Unit (Int × Str) :=
  match filetype_from_path root path with
  | .error e => .error e
  | .ok none => .ok (eNOENT, [])
  | .ok (some file) => .ok ((file.size : Nat), readBuf file sb)

/-! ## Creation, rename, directory removal -/

/-- The 16 consecutive `find_free_db()` calls that fill a new file's
`datablocks` (FS.c:1272-1275), threading the superblock. -/
def allocDbs (sb : Superblock) : Nat → Superblock × List Nat
  | 0 => (sb, [])
  | n + 1 =>
      let (sb', i) := find_free_db sb
      let (sb'', rest) := allocDbs sb' n
      (sb'', i.toNat :: rest)

/-- `mycreate` (FS.c:1223-1283): `find_free_inode()` first (its bitmap
mark sticks even on failure), split the path at the last `/` (`strrchr`;
a path with no `/` at all would make `*rindex = '\0'` dereference NULL —
modelled as `.error`), an empty parent path becomes `"/"`, resolve the
parent (NULL ⇒ `-ENOENT`), append the new file to the parent's children,
fill its 16 datablock refs from `find_free_db`, sizes zeroed. -/
def mycreate (root : FNode) (sb : Superblock) (path : Str) :
    Except Unit (Int × FNode × Superblock) :=
  let sb1 := (find_free_inode sb).1
  if slash ∈ path then
    let nm := afterLastSlash path
    let pp0 := beforeLastSlash path
    let pp := if pp0.length = 0 then [slash] else pp0
    match filetype_from_path root pp with
    | .error e => .error e
    | .ok none => .ok (eNOENT, root, sb1)
    | .ok (some _parent) =>
        let al := allocDbs sb1 16
        let newFile : FNode := .mk 1 path nm fileT 0 0 al.2 0 []
        .ok (0, updPath root pp (fun p => p.setChildren (p.children ++ [newFile])), al.1)
  else .error ()

/-- `myrename` (FS.c:1462-1495): resolve the *full* old path (the
truncation at `rindex1` happens after the lookup), NULL ⇒ `-ENOENT`;
otherwise overwrite in place `name` with the segment after the last `/`
of `to` and `path` with the full `to` (a `to` without any `/` would make
`strcpy(file->name, rindex2 + 1)` read from address 1 — modelled as
`.error`). -/
def myrename (root : FNode) (src dst : Str) : Except Unit (Int × FNode) :=
  match filetype_from_path root src with
  | .error e => .error e
  | .ok none => .ok (eNOENT, root)
  | .ok (some _file) =>
      if slash ∈ dst then
        .ok (0, updPath root src (fun n => n.setNamePath (afterLastSlash dst) dst))
      else .error ()

/-- `myrmdir` (FS.c:1027-1083): split at the last `/` (none ⇒ NULL deref,
`.error`), empty parent path becomes `"/"`, resolve the parent (NULL ⇒
`-ENOENT`), `-ENOENT` when the parent has no children, scan the children
in order for the first name match (the break-less last iteration reads
`children[num_children]` out of bounds, but that value is unused); no
match ⇒ `-ENOENT`, a match with children ⇒ `-ENOTEMPTY`, otherwise the
left-shift splice `children[i-1] = children[i]` removes exactly the match
(`eraseIdx`). -/
def myrmdir (root : FNode) (path : Str) : Except Unit (Int × FNode) :=
  if slash ∈ path then
    match filetype_from_path root
        (if (beforeLastSlash path).length = 0 then [slash] else beforeLastSlash path) with
    | .error e => .error e
    | .ok none => .ok (eNOENT, root)
    | .ok (some parent) =>
        if parent.children.length = 0 then .ok (eNOENT, root)
        else
          match parent.children.findIdx? (fun ch => ch.name == afterLastSlash path) with
          | none => .ok (eNOENT, root)
          | some i =>
              if ((parent.children.getD i parent).children).length ≠ 0 then
                .ok (eNOTEMPTY, root)
              else
                .ok (0, updPath root
                      (if (beforeLastSlash path).length = 0 then [slash]
                       else beforeLastSlash path)
                      (fun p => p.setChildren (p.children.eraseIdx i)))
  else .error ()

/-! ## Tree flattening (`tree_to_array` FS.c:318-369, `save_contents`
FS.c:434-460)

`save_contents` mallocs a 60-slot queue, copies `*root` into slot 0 with
`front = rear = 0`, and runs the recursive `tree_to_array`, which per call
copies `queue[front++]` into `file_array[index++]` and — only while the
*incremented* output index is still `< 6` — enqueues the copied entry's
children followed by invalid padding up to 5 slots (5 pure pads when the
copied entry is invalid).  Inside the child loop `if (*rear < *front)
*rear = *front;` bumps the rear once (it only ever fires on the very first
child of the root, where `rear = 0 < front = 1`).  Recursion stops when
`index > 30`.  The `if (rear < front) return;` at the top compares the two
*pointers*, not their values, so it never triggers and is omitted.

Uninitialised malloc'd queue slots are modelled by the marker `undefNode`
(reads past the written prefix of the queue list); the local
`filetype waste_node` has every field uninitialised except `valid = 0`,
modelled with zero fields. -/

/-- The zero-initialised `filetype` (the `file_array` global starts as
zeroes). -/
def zeroNode : FNode := .mk 0 [] [] [] 0 0 [] 0 []

/-- Marker for an uninitialised (indeterminate) malloc'd queue slot; the
`valid = 2` tag only distinguishes it from real entries. -/
def undefNode : FNode := .mk 2 [] [] [] 0 0 [] 0 []

/-- `filetype waste_node; waste_node.valid = 0;` (FS.c:347-348). -/
def wasteNode : FNode := .mk 0 [] [] [] 0 0 [] 0 []

/-- `queue[i] = x` on the modelled queue: overwrite a written slot, or
extend the written prefix (skipped slots stay indeterminate). -/
def writeQ (q : List FNode) (i : Nat) (x : FNode) : List FNode :=
  if i < q.length then q.set i x
  else q ++ List.replicate (i - q.length) undefNode ++ [x]

/-- The child-enqueueing `for` loop (FS.c:338-344), including the
`if (*rear < *front) *rear = *front;` bump. -/
def enqChildren (front : Nat) : List FNode → Nat → List FNode → List FNode × Nat
  | q, rear, [] => (q, rear)
  | q, rear, c :: cs =>
      let rear' := if rear < front then front else rear
      enqChildren front (writeQ q rear' c) (rear' + 1) cs

/-- The `while (i < 5)` padding loops (FS.c:345-352 and 356-364): enqueue
`k` invalid `waste_node`s. -/
def enqPad : List FNode → Nat → Nat → List FNode × Nat
  | q, rear, 0 => (q, rear)
  | q, rear, k + 1 => enqPad (writeQ q rear wasteNode) (rear + 1) k

/-- The mutable state of `tree_to_array`: the queue, the two queue
cursors, the output index, and `file_array`. -/
structure T2AState where
  queue : List FNode
  front : Nat
  rear : Nat
  idx : Nat
  arr : Nat → FNode

/-- `tree_to_array` (FS.c:318-369).  The fuel only bounds the recursion
depth; the C recursion stops through the `index > 30` check, which is
reached within 32 calls since `index` grows by one per call. -/
def tree_to_array : Nat → T2AState → T2AState
  | 0, s => s
  | fuel + 1, s =>
      if s.idx > 30 then s
      else
        let curr := s.queue.getD s.front undefNode
        let front' := s.front + 1
        let arr' := fun j => if j = s.idx then curr else s.arr j
        let idx' := s.idx + 1
        if idx' < 6 then
          if curr.valid ≠ 0 then
            let e := enqChildren front' s.queue s.rear curr.children
            let p := enqPad e.1 e.2 (5 - curr.children.length)
            tree_to_array fuel ⟨p.1, front', p.2, idx', arr'⟩
          else
            let p := enqPad s.queue s.rear 5
            tree_to_array fuel ⟨p.1, front', p.2, idx', arr'⟩
        else
          tree_to_array fuel ⟨s.queue, front', s.rear, idx', arr'⟩

/-- The flatten pass of `save_contents` (FS.c:437-442): the queue holds
`*root` at slot 0 with `front = rear = 0`, and `file_array` receives the
31 output slots. -/
def flattenRoot (t : FNode) : Nat → FNode :=
  (tree_to_array 40 ⟨[t], 0, 0, 0, fun _ => zeroNode⟩).arr

/-- A child list padded with invalid entries to (at least) 5 slots, as the
enqueue step emits for one processed entry. -/
def padTo5 (cs : List FNode) : List FNode :=
  cs ++ List.replicate (5 - cs.length) wasteNode

/-- What one processed queue slot contributes to the queue while the
output index is below 6: its children padded to 5 slots when it is valid,
5 pads otherwise. -/
def grp (n : FNode) : List FNode :=
  if n.valid ≠ 0 then padTo5 n.children else List.replicate 5 wasteNode

/-- The final queue contents: the root, the root's padded children
(slots 1..5), then the contributions of the first *four* level-1 slots
only — the fifth is processed at output index 6, when enqueueing has
already stopped. -/
def qFinal (t : FNode) : List FNode :=
  [t] ++ padTo5 t.children ++ (((padTo5 t.children).take 4).map grp).join

/-- Spec-side sequence for claim C4, modelled from the claim's words:
slot 0 the root, slots 1..5 the root's children in order followed by
invalid padding, and from slot 6 on the plain breadth-first continuation
with no further forced padding.  `bfsNoPad` processes the queue of the
level-1 entries, each valid entry appending exactly its real children. -/
def bfsNoPad : Nat → List FNode → List FNode
  | 0, _ => []
  | _ + 1, [] => []
  | fuel + 1, n :: rest =>
      n :: bfsNoPad fuel (rest ++ (if n.valid ≠ 0 then n.children else []))

/-- The layout claim C4 asserts for the 31 output slots. -/
def c4SpecSeq (t : FNode) : List FNode :=
  [t] ++ padTo5 t.children ++
    bfsNoPad 25 (((padTo5 t.children).map
      (fun n => if n.valid ≠ 0 then n.children else [])).join)

/-- Claim C4 as stated, as a predicate on the flattened tree. -/
def c4claim (t : FNode) : Prop :=
  ∀ j, j ≤ 30 → j < (c4SpecSeq t).length →
    flattenRoot t j = (c4SpecSeq t).getD j wasteNode

/-- C4's counterexample tree: a root with two valid children `A` and `B`,
where `A` has one child `X` and `B` one child `Y`. -/
def c4X : FNode := .mk 1 [slash, 65, slash, 88] [88] fileT 0 0 [] 0 []

def c4Y : FNode := .mk 1 [slash, 66, slash, 89] [89] fileT 0 0 [] 0 []

def c4A : FNode := .mk 1 [slash, 65] [65] dirT 0 0 [] 2 [c4X]

def c4B : FNode := .mk 1 [slash, 66] [66] dirT 0 0 [] 2 [c4Y]

def c4T : FNode := .mk 1 [slash] [slash] dirT 0 0 [] 2 [c4A, c4B]

/-! ## Spec-side resolver (for the refinement claim C7) -/

/-- Modelled from the spec's words (§4.2), for comparison with
`filetype_from_path`: "Resolution starts at the root and, for each segment
(split on the separator), linearly scans the current directory's `children`
for a name match (exact, case-sensitive); first match wins, no match
short-circuits to not-found." -/
def resolveSpec (cur : FNode) : List Str → Option FNode
  | [] => some cur
  | seg :: rest =>
      match cur.children.find? (fun ch => ch.name == seg) with
      | some ch => resolveSpec ch rest
      | none => none

/-- `intercalate "/" segs`: the textual path whose segments are `segs`. -/
def joinSegs : List Str → Str
  | [] => []
  | [s] => s
  | s :: r :: rest => s ++ slash :: joinSegs (r :: rest)

/-- `"/" ++ intercalate "/" segs`. -/
def pathOfSegs (segs : List Str) : Str := slash :: joinSegs segs

/-! ## Demo trees used by concrete witnesses -/

/-- A file entry `/a` with no content (datablock refs all 1, as `mycreate`
leaves them given the `find_free_db` defect). -/
def demoFile : FNode :=
  .mk 1 [slash, 97] [97] fileT 0 0 (List.replicate 16 1) 0 []

/-- A root directory whose only child is `demoFile`. -/
def demoRoot1 : FNode := .mk 1 [slash] [slash] dirT 0 0 [] 2 [demoFile]

/-! ## Initial filesystem state (fresh image)

`initialize_root_directory` (FS.c:505-539) writes the integer `1` (not the
character `'1'`) into `inode_bitmap[1]` and builds the root entry with
`size = 0`, `blocks = 0`, `num_links = 2`; its `datablocks` array is never
written (`malloc` garbage), modelled as `[]` with the zero-filled-heap
convention — no claim reads it. -/

/-- The superblock right after `initialize_superblock()` and
`initialize_root_directory()`. -/
def init_rootdir_sb : Superblock :=
  { init_superblock with inode_bitmap := init_superblock.inode_bitmap.set 1 1 }

/-- The root entry built by `initialize_root_directory`. -/
def rootNode : FNode := .mk 1 [slash] [slash] dirT 0 0 [] 2 []

/-! ## Concrete runs for claims C5, C6 and C1 -/

/-- `"/hi"`. -/
def c5path : Str := [slash, 104, 105]

/-- `"Hello"`. -/
def strHello : Str := [72, 101, 108, 108, 111]

/-- `" World"`. -/
def strWorld : Str := [32, 87, 111, 114, 108, 100]

/-- `"Hello World"`. -/
def strHelloWorld : Str := strHello ++ strWorld

/-- C5's scenario: on a fresh filesystem, create `/hi`, write `"Hello"`,
write `" World"`, then read the file back. -/
def c5chain : Except Unit (Int × Str) :=
  match mycreate rootNode init_rootdir_sb c5path with
  | .error e => .error e
  | .ok (_, r1, sb1) =>
    match mywrite r1 sb1 c5path strHello with
    | .error e => .error e
    | .ok (_, r2, sb2) =>
      match mywrite r2 sb2 c5path strWorld with
      | .error e => .error e
      | .ok (_, r3, sb3) => myread r3 sb3 c5path

/-- `"/f"`. -/
def c6path : Str := [slash, 102]

/-- 1024 bytes of `'a'`. -/
def c6buf1 : Str := List.replicate 1024 97

/-- 10 bytes of `'b'`. -/
def c6buf2 : Str := List.replicate 10 98

/-- C6's scenario: on a fresh filesystem, create `/f`, write 1024 bytes of
`'a'`, then write 10 more bytes (`'b'`s). -/
def c6chain : Except Unit (Int × FNode × Superblock) :=
  match mycreate rootNode init_rootdir_sb c6path with
  | .error e => .error e
  | .ok (_, r1, sb1) =>
    match mywrite r1 sb1 c6path c6buf1 with
    | .error e => .error e
    | .ok (_, r2, sb2) => mywrite r2 sb2 c6path c6buf2

/-- The file `/f` as `mycreate` leaves it (all 16 datablock refs are 1,
courtesy of the `find_free_db` defect). -/
def c6file1 : FNode := .mk 1 c6path [102] fileT 0 0 (List.replicate 16 1) 0 []

/-- The tree after creating `/f`. -/
def c6r1 : FNode := .mk 1 [slash] [slash] dirT 0 0 [] 2 [c6file1]

/-- The superblock after creating `/f`: `find_free_inode` marked inode 2;
the 16 `find_free_db` calls found `inode_bitmap[1] == 1 ≠ '0'` and changed
nothing. -/
def c6sb1 : Superblock :=
  { init_superblock with
      inode_bitmap := (init_superblock.inode_bitmap.set 1 1).set 2 c1 }

/-- `/f` after the first write: 1024 bytes, one block in use. -/
def c6file2 : FNode := .mk 1 c6path [102] fileT 1024 1 (List.replicate 16 1) 0 []

/-- The tree after the first write. -/
def c6r2 : FNode := .mk 1 [slash] [slash] dirT 0 0 [] 2 [c6file2]

/-- The superblock after the first write: the 1024 `'a'`s (and the
terminator, which already spills one byte past block 1) at offset 1024. -/
def c6sb2 : Superblock :=
  { c6sb1 with datablocks := [(1024, c6buf1 ++ [0])] }

/-- `/f` after the second write: 1034 bytes but still `blocks = 1`. -/
def c6file3 : FNode := .mk 1 c6path [102] fileT 1034 1 (List.replicate 16 1) 0 []

/-- The tree after the second write. -/
def c6r3 : FNode := .mk 1 [slash] [slash] dirT 0 0 [] 2 [c6file3]

/-- The superblock after the second write: the 10 `'b'`s were appended at
the terminator the first write left at offset 2048 — past the end of
block 1, in the arena region of (unreferenced) block 2. -/
def c6sb3 : Superblock :=
  { c6sb1 with datablocks := [(2048, c6buf2 ++ [0]), (1024, c6buf1 ++ [0])] }

/-- C1's write buffer, `"XYZWV"`. -/
def c1buf : Str := [88, 89, 90, 87, 86]

/-- C1's existing file content: 1020 bytes of `'a'` in its last block. -/
def c1content : Str := List.replicate 1020 97

/-- C1's file: 1020 bytes, one block in use (block 1), next ref block 2. -/
def c1file : FNode :=
  .mk 1 c6path [102] fileT 1020 1 ([1, 2] ++ List.replicate 14 0) 0 []

/-- C1's tree: the root holding `c1file`. -/
def c1root : FNode := .mk 1 [slash] [slash] dirT 0 0 [] 2 [c1file]

/-- C1's superblock: block 1 holds the 1020 content bytes. -/
def c1sb : Superblock :=
  { init_rootdir_sb with datablocks := [(1024, c1content ++ [0])] }

/-- C1's file after the write: `1020 + 5` bytes, two blocks. -/
def c1file' : FNode :=
  .mk 1 c6path [102] fileT 1025 2 ([1, 2] ++ List.replicate 14 0) 0 []

/-- C1's tree after the write. -/
def c1root' : FNode := .mk 1 [slash] [slash] dirT 0 0 [] 2 [c1file']

/-- C1's superblock after the write: `"XYZ"` (only `len1 - 1 = 3` bytes)
appended at offset 2044, and `"WV"` written at the start of block 2
(offset 2048). -/
def c1sb' : Superblock :=
  { init_rootdir_sb with
      datablocks :=
        [(2048, [87, 86, 0]), (2044, [88, 89, 90, 0]), (1024, c1content ++ [0])] }

end FS

namespace FS

/-! ## Claims C2 and C3: the allocators -/

/-- A superblock in which data block 1 is occupied (`'1'`), all other data
blocks are free, and every inode is free: a state with plenty of free data
blocks whose lowest free data block is 2. -/
def sbC2 : Superblock :=
  { datablocks := []
    data_bitmap := (List.replicate 100 c0 ++ List.replicate 5 0).set 1 c1
    inode_bitmap := List.replicate 100 c0 ++ List.replicate 5 0 }

/-- A superblock whose inode bitmap has inode 2 occupied (`'1'`) and
inodes 3..99 free (slot 1 holds the integer `1` that
`initialize_root_directory` writes, FS.c:508). -/
def sbC3 : Superblock :=
  { datablocks := []
    data_bitmap := List.replicate 100 c0 ++ List.replicate 5 0
    inode_bitmap := ((List.replicate 100 c0 ++ List.replicate 5 0).set 1 1).set 2 c1 }

end FS

/-- C2: the claim says `find_free_db` returns the lowest-numbered *free*
data block, marks it in the *data* bitmap, and scans first-fit.  The code
does none of this: on a state whose data block 1 is occupied (lowest free
data block = 2) it still returns 1, it leaves the data bitmap untouched,
and it marks slot 1 of the *inode* bitmap instead. -/
theorem c2_find_free_db_returns_occupied_block_and_marks_inode_bitmap :
    (FS.find_free_db FS.sbC2).2 = 1 ∧
    FS.sbC2.data_bitmap.getD 1 0 = FS.c1 ∧
    FS.sbC2.data_bitmap.getD 2 0 = FS.c0 ∧
    (FS.find_free_db FS.sbC2).1.data_bitmap = FS.sbC2.data_bitmap ∧
    (FS.find_free_db FS.sbC2).1.inode_bitmap = FS.sbC2.inode_bitmap.set 1 FS.c1 := by
  refine ⟨rfl, by decide, by decide, rfl, ?_⟩
  simp [FS.find_free_db, FS.sbC2]

/-- C3: the claim says `find_free_inode` returns the lowest-numbered free
inode, marking it, scanning first-fit.  On a bitmap where inode 2 is
occupied and inode 3 is free, the code still returns 2 (the misplaced
`return` never lets the loop advance) and changes nothing. -/
theorem c3_find_free_inode_ignores_occupied_slot2 :
    (FS.find_free_inode FS.sbC3).2 = 2 ∧
    FS.sbC3.inode_bitmap.getD 2 0 = FS.c1 ∧
    FS.sbC3.inode_bitmap.getD 3 0 = FS.c0 ∧
    (FS.find_free_inode FS.sbC3).1 = FS.sbC3 := by
  refine ⟨rfl, by decide, by decide, ?_⟩
  simp [FS.find_free_inode, FS.sbC3]

namespace FS

/-! ## List helper lemmas for path parsing -/

theorem takeWhile_append_slash (l r : Str) (hl : slash ∉ l) :
    (l ++ slash :: r).takeWhile (fun c => c != slash) = l := by
  induction l with
  | nil => simp [List.takeWhile_cons]
  | cons a t ih =>
      simp only [List.mem_cons, not_or] at hl
      have ha : (a != slash) = true := by
        simp only [bne_iff_ne, ne_eq]
        exact fun hc => hl.1 hc.symm
      simp [List.takeWhile_cons, ha, ih hl.2]

theorem takeWhile_no_slash (l : Str) (hl : slash ∉ l) :
    l.takeWhile (fun c => c != slash) = l := by
  rw [List.takeWhile_eq_self_iff]
  intro x hx
  simp only [bne_iff_ne, ne_eq]
  exact fun hc => hl (hc ▸ hx)

theorem drop_append_cons (l : Str) (c : Nat) (r : Str) :
    (l ++ c :: r).drop (l.length + 1) = r := by
  induction l with
  | nil => simp
  | cons a t ih => simp only [List.cons_append, List.length_cons, List.drop_succ_cons]; exact ih

theorem getLast?_ne_slash_of_not_mem (l : Str) (hne : l ≠ []) (hm : slash ∉ l) :
    l.getLast? ≠ some slash := by
  induction l with
  | nil => cases hne rfl
  | cons a t ih =>
      cases t with
      | nil =>
          simp only [List.mem_singleton, List.getLast?_singleton] at hm ⊢
          intro hc
          exact hm (by injection hc with h; exact h.symm ▸ rfl)
      | cons b t2 =>
          rw [List.getLast?_cons_cons]
          exact ih (by simp) (fun h => hm (List.mem_cons_of_mem _ h))

theorem joinSegs_ne_nil (segs : List Str) (h : segs ≠ [])
    (hs : ∀ s ∈ segs, s ≠ []) : joinSegs segs ≠ [] := by
  cases segs with
  | nil => cases h rfl
  | cons s tl =>
      cases tl with
      | nil => exact hs s (by simp)
      | cons s2 tl2 => simp [joinSegs]

theorem getLast?_joinSegs_ne_slash (segs : List Str) (h : segs ≠ [])
    (hgood : ∀ s ∈ segs, s ≠ [] ∧ slash ∉ s) :
    (joinSegs segs).getLast? ≠ some slash := by
  induction segs with
  | nil => cases h rfl
  | cons s tl ih =>
      cases tl with
      | nil =>
          have hs := hgood s (by simp)
          exact getLast?_ne_slash_of_not_mem s hs.1 hs.2
      | cons s2 tl2 =>
          have htl : joinSegs (s2 :: tl2) ≠ [] :=
            joinSegs_ne_nil _ (by simp) (fun x hx => (hgood x (by simp [hx])).1)
          rw [joinSegs, List.getLast?_append_of_ne_nil _ (by simp)]
          have : (slash :: joinSegs (s2 :: tl2)).getLast? = (joinSegs (s2 :: tl2)).getLast? := by
            cases hjs : joinSegs (s2 :: tl2) with
            | nil => cases htl hjs
            | cons y ys => rw [List.getLast?_cons_cons]
          rw [this]
          exact ih (by simp) (fun x hx => hgood x (by simp [hx]))

/-- Core refinement lemma, fuel version: on a path written as `/`-joined
good segments, the resolution loop of `filetype_from_path` computes
exactly the spec's segment-by-segment first-match resolution. -/
theorem ftpLoopF_joinSegs (segs : List Str) (h : segs ≠ [])
    (hgood : ∀ s ∈ segs, s ≠ [] ∧ slash ∉ s) :
    ∀ fuel cur, (joinSegs segs).length ≤ fuel →
      ftpLoopF fuel cur (joinSegs segs) = resolveSpec cur segs := by
  induction segs with
  | nil => cases h rfl
  | cons s tl ih =>
      intro fuel cur hfuel
      have hs := hgood s (by simp)
      have hslen : 1 ≤ s.length := by
        cases s with
        | nil => cases hs.1 rfl
        | cons a t => simp
      cases tl with
      | nil =>
          simp only [joinSegs] at hfuel ⊢
          cases fuel with
          | zero => omega
          | succ f =>
              simp only [ftpLoopF]
              rw [if_neg (by omega)]
              simp only [takeWhile_no_slash s hs.2, if_pos rfl]
              cases hfind : cur.children.find? (fun ch => ch.name == s) with
              | none => simp [resolveSpec, hfind]
              | some ch => simp [resolveSpec, hfind]
      | cons s2 tl2 =>
          simp only [joinSegs] at hfuel ⊢
          cases fuel with
          | zero =>
              simp only [List.length_append, List.length_cons] at hfuel
              omega
          | succ f =>
              simp only [ftpLoopF]
              rw [if_neg (by simp)]
              simp only [takeWhile_append_slash s _ hs.2]
              rw [if_neg (by simp only [List.length_append, List.length_cons]; omega)]
              rw [drop_append_cons]
              cases hfind : cur.children.find? (fun ch => ch.name == s) with
              | none => simp [resolveSpec, hfind]
              | some ch =>
                  simp only [resolveSpec, hfind]
                  apply ih (by simp) (fun x hx => hgood x (by simp [hx]))
                  simp only [List.length_append, List.length_cons] at hfuel
                  omega

/-- `ftpLoop` version of the refinement lemma (the fuel `rest.length` is
enough). -/
theorem ftpLoop_joinSegs (segs : List Str) (h : segs ≠ [])
    (hgood : ∀ s ∈ segs, s ≠ [] ∧ slash ∉ s) :
    ∀ cur, ftpLoop cur (joinSegs segs) = resolveSpec cur segs :=
  fun cur => ftpLoopF_joinSegs segs h hgood _ cur (le_refl _)

end FS

/-- C7: `filetype_from_path` starts at the root and, for each
slash-separated segment, linearly scans the current directory's children
for an exact case-sensitive first match, with no match yielding not-found
(this is `resolveSpec`, written from the spec's words); and the path `"/"`
resolves to the root entry itself. -/
theorem c7_resolution_refines_spec (root : FS.FNode) (segs : List FS.Str)
    (hne : segs ≠ []) (hgood : ∀ s ∈ segs, s ≠ [] ∧ FS.slash ∉ s) :
    FS.filetype_from_path root [FS.slash] = .ok (some root) ∧
    FS.filetype_from_path root (FS.pathOfSegs segs) = .ok (FS.resolveSpec root segs) := by
  constructor
  · simp [FS.filetype_from_path]
  · have hjoin : FS.joinSegs segs ≠ [] :=
      FS.joinSegs_ne_nil segs hne (fun s hs => (hgood s hs).1)
    unfold FS.filetype_from_path
    rw [if_neg (by simp [FS.pathOfSegs, hjoin])]
    rw [if_neg (by simp [FS.pathOfSegs])]
    simp only [FS.pathOfSegs, List.drop_succ_cons, List.drop_zero]
    rw [if_neg (FS.getLast?_joinSegs_ne_slash segs hne hgood)]
    rw [FS.ftpLoop_joinSegs segs hne hgood root]

/-- Witness for C7 at a concrete tree and the concrete path `/a`. -/
theorem c7_witness :
    (([[97]] : List FS.Str) ≠ [] ∧ (∀ s ∈ ([[97]] : List FS.Str), s ≠ [] ∧ FS.slash ∉ s)) ∧
    FS.filetype_from_path FS.demoRoot1 [FS.slash] = .ok (some FS.demoRoot1) ∧
    FS.filetype_from_path FS.demoRoot1 (FS.pathOfSegs [[97]]) =
      .ok (FS.resolveSpec FS.demoRoot1 [[97]]) :=
  ⟨⟨by decide, by decide⟩,
   c7_resolution_refines_spec FS.demoRoot1 [[97]] (by decide) (by decide)⟩

/-- C10: `myopen` returns success (0) for every path with a leading `/`,
including paths that resolve to no entry: the resolution result is
discarded. -/
theorem c10_myopen_always_succeeds (root : FS.FNode) (path : FS.Str)
    (h : path.headD 0 = FS.slash) : FS.myopen root path = .ok 0 := by
  unfold FS.myopen FS.filetype_from_path
  by_cases hp : path = [FS.slash]
  · simp [hp]
  · rw [if_neg hp, if_neg (fun hc => hc h)]

/-- Witness for C10: opening the nonexistent path `/x` in a concrete tree
still returns 0. -/
theorem c10_witness :
    ([FS.slash, 120] : FS.Str).headD 0 = FS.slash ∧
    FS.myopen FS.demoRoot1 [FS.slash, 120] = .ok 0 :=
  ⟨by decide, c10_myopen_always_succeeds FS.demoRoot1 [FS.slash, 120] (by decide)⟩

namespace FS

/-! ## Arena lemmas: evaluating `cstrlen` without a byte-by-byte scan -/

theorem cstrlenF_eq (m : Nat) :
    ∀ (fuel off : Nat) (a : Arena),
      (∀ k, k < m → readByte a (off + k) ≠ 0) →
      readByte a (off + m) = 0 → m < fuel →
      cstrlenF fuel a off = m := by
  induction m with
  | zero =>
      intro fuel off a _h1 h2 hf
      cases fuel with
      | zero => omega
      | succ f =>
          simp only [cstrlenF]
          rw [if_pos (by simpa using h2)]
  | succ m ih =>
      intro fuel off a h1 h2 hf
      cases fuel with
      | zero => omega
      | succ f =>
          simp only [cstrlenF]
          rw [if_neg (by simpa using h1 0 (Nat.succ_pos m))]
          have hrec : cstrlenF f a (off + 1) = m := by
            apply ih
            · intro k hk
              have := h1 (k + 1) (by omega)
              rwa [show off + (k + 1) = off + 1 + k by omega] at this
            · rwa [show off + (m + 1) = off + 1 + m by omega] at h2
            · omega
          rw [hrec]

/-- The C-string starting at the base of a freshly written segment
`s ++ [0]` (with `s` NUL-free) has length `s.length`. -/
theorem cstrlen_seg (b : Nat) (s : List Nat) (rest : Arena)
    (hs : ∀ x ∈ s, x ≠ 0) (hlen : s.length < 204800) :
    cstrlen ((b, s ++ [0]) :: rest) b = s.length := by
  unfold cstrlen
  apply cstrlenF_eq
  · intro k hk
    have hin : b ≤ b + k ∧ b + k < b + (s ++ [0]).length := by
      constructor
      · omega
      · simp only [List.length_append, List.length_singleton]
        omega
    simp only [readByte]
    rw [if_pos hin, show b + k - b = k by omega]
    rw [List.getD_append _ _ _ _ (by omega)]
    rw [List.getD_eq_getElem _ _ (by omega)]
    exact hs _ (List.getElem_mem _)
  · have hin : b ≤ b + s.length ∧ b + s.length < b + (s ++ [0]).length := by
      constructor
      · omega
      · simp only [List.length_append, List.length_singleton]
        omega
    simp only [readByte]
    rw [if_pos hin, show b + s.length - b = s.length by omega]
    rw [List.getD_append_right _ _ _ _ (le_refl _)]
    simp
  · omega

/-! ## Branch lemmas for `mywriteBody` and `mywrite` -/

/-- The in-place-append branch of `mywrite` (FS.c:1591-1595): the data
fits into the free space of the last used block, so it is `strcat`ed at
that block's current terminator and only `size` grows. -/
theorem mywriteBody_append (file : FNode) (sb : Superblock) (buf : Str)
    (h0 : ¬ file.size = 0)
    (hfit : blockSize - file.size % blockSize ≥ strlen buf) :
    mywriteBody file sb buf =
      (file.setSizeBlocks (file.size + strlen buf) file.blocks,
       { sb with datablocks :=
           (writeSeg sb.datablocks
             (blockSize * file.datablocks.getD (file.blocks - 1) 0 +
               cstrlen sb.datablocks (blockSize * file.datablocks.getD (file.blocks - 1) 0))
             (buf ++ [0])) }) := by
  simp only [mywriteBody, strcatAt]
  rw [if_neg h0, if_pos hfit]

/-- The overflow branch of `mywrite` (FS.c:1597-1606): only the first
`len1 - 1` bytes are appended to the current block, the rest (from index
`len1 - 1` on) is `strcpy`ed to the start of the next referenced block,
and both `size` and `blocks` grow. -/
theorem mywriteBody_overflow (file : FNode) (sb : Superblock) (buf : Str)
    (h0 : ¬ file.size = 0)
    (hov : ¬ blockSize - file.size % blockSize ≥ strlen buf) :
    mywriteBody file sb buf =
      (file.setSizeBlocks (file.size + strlen buf) (file.blocks + 1),
       { sb with datablocks :=
           (writeSeg
             (writeSeg sb.datablocks
               (blockSize * file.datablocks.getD (file.blocks - 1) 0 +
                 cstrlen sb.datablocks (blockSize * file.datablocks.getD (file.blocks - 1) 0))
               (buf.take (blockSize - file.size % blockSize - 1) ++ [0]))
             (blockSize * file.datablocks.getD (file.blocks - 1 + 1) 0)
             (buf.drop (blockSize - file.size % blockSize - 1) ++ [0])) }) := by
  simp only [mywriteBody, strcatAt, strcpyAt]
  rw [if_neg h0, if_neg hov]

/-- Evaluate `mywrite` from a resolution fact and a body fact. -/
theorem mywrite_eq (root : FNode) (sb sb' : Superblock) (path buf : Str)
    (file f' : FNode)
    (hres : filetype_from_path root path = Except.ok (some file))
    (hbody : mywriteBody file sb buf = (f', sb')) :
    mywrite root sb path buf =
      .ok ((strlen buf : Nat), updPath root path (fun _ => f'), sb') := by
  unfold mywrite
  rw [hres]
  simp only [hbody]

end FS

/-- C5: on a fresh filesystem, creating a file, writing `"Hello"`, then
`" World"`, and reading it back yields the content `"Hello World"` with a
reported length of 11. -/
theorem c5_write_write_read_hello_world :
    FS.c5chain = .ok (11, FS.strHelloWorld) := by rfl

set_option maxRecDepth 40000 in
/-- Creating `/f` on the fresh filesystem. -/
theorem c6_step1 :
    FS.mycreate FS.rootNode FS.init_rootdir_sb FS.c6path = .ok (0, FS.c6r1, FS.c6sb1) := by
  rfl

set_option maxRecDepth 40000 in
/-- First write: 1024 `'a'`s into the empty `/f` (the `size == 0` branch,
a plain `strcpy` into block 1 whose terminator lands at offset 2048). -/
theorem c6_step2 :
    FS.mywrite FS.c6r1 FS.c6sb1 FS.c6path FS.c6buf1 = .ok (1024, FS.c6r2, FS.c6sb2) := by
  rfl

/-- The 1024 content bytes of block 1 give the `strcat` append point
offset 2048 — one byte past the end of block 1. -/
theorem c6_cstrlen :
    FS.cstrlen FS.c6sb2.datablocks
      (FS.blockSize * FS.c6file2.datablocks.getD (FS.c6file2.blocks - 1) 0) = 1024 := by
  have hlen : FS.c6buf1.length = 1024 := List.length_replicate 1024 97
  have h := FS.cstrlen_seg 1024 FS.c6buf1 []
    (fun x hx =>
      by rw [List.eq_of_mem_replicate (show x ∈ List.replicate 1024 97 from hx)]; decide)
    (by rw [hlen]; decide)
  show FS.cstrlen [(1024, FS.c6buf1 ++ [0])] 1024 = 1024
  rw [h, hlen]

set_option maxRecDepth 40000 in
/-- Second write: `len1 = 1024 - 1024 % 1024 = 1024 ≥ 10`, so the code
takes the in-place `strcat` branch: `blocks` stays 1 and the 10 `'b'`s
are appended at offset 2048, outside block 1. -/
theorem c6_step3 :
    FS.mywrite FS.c6r2 FS.c6sb2 FS.c6path FS.c6buf2 = .ok (10, FS.c6r3, FS.c6sb3) := by
  have hres : FS.filetype_from_path FS.c6r2 FS.c6path = Except.ok (some FS.c6file2) := by rfl
  have hbody : FS.mywriteBody FS.c6file2 FS.c6sb2 FS.c6buf2 = (FS.c6file3, FS.c6sb3) := by
    rw [FS.mywriteBody_append FS.c6file2 FS.c6sb2 FS.c6buf2 (by decide) (by decide)]
    rw [c6_cstrlen]
    rfl
  rw [FS.mywrite_eq FS.c6r2 FS.c6sb2 FS.c6sb3 FS.c6path FS.c6buf2 FS.c6file2 FS.c6file3
        hres hbody]
  rfl

set_option maxRecDepth 40000 in
/-- C6: after writing 1024 bytes of `'a'` and then 10 more bytes to an
empty file, the file's block count is **1**, not 2 as the claim states:
`len1 = 1024 - (1024 % 1024)` treats the full block as having 1024 free
bytes, so the code takes the in-place branch.  The "second referenced
block" is block 1 again (`find_free_db` gave every slot ref 1), whose
first byte still holds `'a'`; the 10 `'b'`s were instead appended at
arena offset 2048, past the end of block 1. -/
theorem c6_block_boundary_crossing_fails :
    FS.c6chain = .ok (10, FS.c6r3, FS.c6sb3) ∧
    (FS.nodeAt FS.c6r3 [0]).map FS.FNode.blocks = some 1 ∧
    (FS.nodeAt FS.c6r3 [0]).map (fun f => f.datablocks.getD 1 0) = some 1 ∧
    FS.readByte FS.c6sb3.datablocks (1024 * 1) = 97 ∧
    FS.readByte FS.c6sb3.datablocks 2048 = 98 := by
  refine ⟨?_, by rfl, by rfl, ?_, ?_⟩
  · unfold FS.c6chain
    simp only [c6_step1, c6_step2, c6_step3]
  · rfl
  · rfl

/-- The 1020 content bytes of C1's block 1 put the `strcat` append point
at offset 2044. -/
theorem c1_cstrlen :
    FS.cstrlen FS.c1sb.datablocks
      (FS.blockSize * FS.c1file.datablocks.getD (FS.c1file.blocks - 1) 0) = 1020 := by
  have hlen : FS.c1content.length = 1020 := List.length_replicate 1020 97
  have h := FS.cstrlen_seg 1024 FS.c1content []
    (fun x hx =>
      by rw [List.eq_of_mem_replicate (show x ∈ List.replicate 1020 97 from hx)]; decide)
    (by rw [hlen]; decide)
  show FS.cstrlen [(1024, FS.c1content ++ [0])] 1024 = 1020
  rw [h, hlen]

set_option maxRecDepth 40000 in
/-- C1: for a file whose last block holds 1020 bytes (`len1 = 4` free),
writing the 5 bytes `"XYZWV"` increments the block count by one and grows
`size` by 5 as claimed, but the current block is *not* filled to the end:
only `len1 - 1 = 3` bytes (`"XYZ"`) are appended, the block's final byte
(offset 2047) stays 0, and the next referenced block starts with byte
index 3 of the data (`'W'`, 87) rather than with the single overflow byte
(`'V'`, 86). -/
theorem c1_overflow_write_splits_at_len1_minus_1 :
    FS.mywrite FS.c1root FS.c1sb FS.c6path FS.c1buf = .ok (5, FS.c1root', FS.c1sb') ∧
    FS.readByte FS.c1sb'.datablocks 2047 = 0 ∧
    FS.readByte FS.c1sb'.datablocks 2048 = 87 ∧
    FS.c1buf.getD 3 0 = 87 ∧ FS.c1buf.getD 4 0 = 86 := by
  have hres : FS.filetype_from_path FS.c1root FS.c6path = Except.ok (some FS.c1file) := by
    rfl
  have hbody : FS.mywriteBody FS.c1file FS.c1sb FS.c1buf = (FS.c1file', FS.c1sb') := by
    rw [FS.mywriteBody_overflow FS.c1file FS.c1sb FS.c1buf (by decide) (by decide)]
    rw [c1_cstrlen]
    rfl
  refine ⟨?_, by rfl, by rfl, by rfl, by rfl⟩
  rw [FS.mywrite_eq FS.c1root FS.c1sb FS.c1sb' FS.c6path FS.c1buf FS.c1file FS.c1file'
        hres hbody]
  rfl

namespace FS

/-! ## Node-path lemmas: what `ftpUpd` changes and what it leaves alone -/

theorem children_setChildren (n : FNode) (cs : List FNode) :
    (n.setChildren cs).children = cs := by
  cases n
  rfl

theorem shallow_setChildren (n : FNode) (cs : List FNode)
    (h : cs.length = n.children.length) :
    (n.setChildren cs).shallow = n.shallow := by
  cases n
  simp only [FNode.setChildren, FNode.shallow, FNode.valid, FNode.path, FNode.name,
    FNode.ftype, FNode.size, FNode.blocks, FNode.datablocks, FNode.num_links,
    FNode.children] at h ⊢
  rw [h]

theorem lt_of_get?_eq_some {l : List FNode} {i : Nat} {x : FNode}
    (h : l.get? i = some x) : i < l.length := by
  by_contra hc
  rw [List.get?_eq_none.mpr (by omega)] at h
  cases h

theorem nodeAt_append (p q : List Nat) (n : FNode) :
    nodeAt n (p ++ q) = (nodeAt n p).bind fun m => nodeAt m q := by
  induction p generalizing n with
  | nil => rfl
  | cons i p' ih =>
      simp only [List.cons_append, nodeAt]
      cases hc : n.children.get? i with
      | none => rfl
      | some c => exact ih c

theorem nodeAt_setNamePath (m : FNode) (nm pth : Str) (q : List Nat) (hq : q ≠ []) :
    nodeAt (m.setNamePath nm pth) q = nodeAt m q := by
  match q with
  | [] => cases hq rfl
  | j :: q' =>
      cases m
      rfl

/-- If the first-match scan finds `x`, then `updFirst` rewrites exactly
the slot of `x` and nothing else. -/
theorem updFirst_spec (seg : Str) (g : FNode → FNode) (l : List FNode) (x : FNode)
    (h : l.find? (fun ch => ch.name == seg) = some x) :
    ∃ i, l.get? i = some x ∧ updFirst seg g l = l.set i (g x) := by
  induction l with
  | nil => cases h
  | cons c cs ih =>
      cases hc : (c.name == seg) with
      | true =>
          simp only [List.find?, hc] at h
          injection h with h
          subst h
          exact ⟨0, rfl, by simp [updFirst, hc]⟩
      | false =>
          simp only [List.find?, hc] at h
          obtain ⟨i, hget, hupd⟩ := ih h
          refine ⟨i + 1, by simpa using hget, ?_⟩
          simp [updFirst, hc, hupd]

/-- Resolution success of the loop pins down an index path `ip`; the
parallel mutation `ftpUpdF` puts `f tgt` exactly there, and every entry
whose index path does not pass through `ip` keeps all its node-local
fields (including its child count). -/
theorem ftpUpdF_resolve (f : FNode → FNode) :
    ∀ fuel rest (cur tgt : FNode), ftpLoopF fuel cur rest = some tgt →
      ∃ ip : List Nat,
        nodeAt cur ip = some tgt ∧
        nodeAt (ftpUpdF fuel cur rest f) ip = some (f tgt) ∧
        ∀ p, (∀ q : List Nat, p ≠ ip ++ q) →
          (nodeAt (ftpUpdF fuel cur rest f) p).map FNode.shallow =
            (nodeAt cur p).map FNode.shallow := by
  intro fuel
  induction fuel with
  | zero => intro rest cur tgt h; cases h
  | succ fuel ih =>
      intro rest cur tgt h
      simp only [ftpLoopF] at h
      by_cases h0 : rest.length = 0
      · rw [if_pos h0] at h; cases h
      · rw [if_neg h0] at h
        by_cases hfin :
            (rest.takeWhile (fun c => c != slash)).length = rest.length
        · rw [if_pos hfin] at h
          cases hfind :
              cur.children.find?
                (fun ch => ch.name == rest.takeWhile (fun c => c != slash)) with
          | none => rw [hfind] at h; cases h
          | some ch =>
              rw [hfind] at h
              injection h with h
              subst h
              obtain ⟨i, hget, hupdF⟩ := updFirst_spec _ f _ _ hfind
              have hlt := lt_of_get?_eq_some hget
              have hupd : ftpUpdF (fuel + 1) cur rest f =
                  cur.setChildren (cur.children.set i (f ch)) := by
                simp only [ftpUpdF]
                rw [if_neg h0, if_pos hfin, hupdF]
              refine ⟨[i], ?_, ?_, ?_⟩
              · simp only [nodeAt, hget]
              · rw [hupd]
                simp only [nodeAt, children_setChildren]
                rw [List.get?_set_eq_of_lt _ hlt]
              · intro p hp
                rw [hupd]
                match p with
                | [] =>
                    simp only [nodeAt, Option.map_some']
                    rw [shallow_setChildren _ _ (by simp)]
                | j :: p' =>
                    have hji : j ≠ i := fun hji => hp p' (by rw [hji]; rfl)
                    simp only [nodeAt, children_setChildren]
                    rw [List.get?_set_ne _ _ (fun hc => hji hc.symm)]
        · rw [if_neg hfin] at h
          cases hfind :
              cur.children.find?
                (fun ch => ch.name == rest.takeWhile (fun c => c != slash)) with
          | none => rw [hfind] at h; cases h
          | some ch =>
              rw [hfind] at h
              obtain ⟨ip', h1, h2, h3⟩ := ih _ _ _ h
              obtain ⟨i, hget, hupdF⟩ := updFirst_spec _
                (fun m => ftpUpdF fuel m
                  (rest.drop ((rest.takeWhile (fun c => c != slash)).length + 1)) f)
                _ _ hfind
              have hlt := lt_of_get?_eq_some hget
              have hupd : ftpUpdF (fuel + 1) cur rest f =
                  cur.setChildren (cur.children.set i
                    (ftpUpdF fuel ch
                      (rest.drop ((rest.takeWhile (fun c => c != slash)).length + 1)) f)) := by
                simp only [ftpUpdF]
                rw [if_neg h0, if_neg hfin, hupdF]
              refine ⟨i :: ip', ?_, ?_, ?_⟩
              · simp only [nodeAt, hget]
                exact h1
              · rw [hupd]
                simp only [nodeAt, children_setChildren]
                rw [List.get?_set_eq_of_lt _ hlt]
                exact h2
              · intro p hp
                rw [hupd]
                match p with
                | [] =>
                    simp only [nodeAt, Option.map_some']
                    rw [shallow_setChildren _ _ (by simp)]
                | j :: p' =>
                    by_cases hji : j = i
                    · subst hji
                      have hp' : ∀ q, p' ≠ ip' ++ q := fun q hq => hp q (by rw [hq]; rfl)
                      simp only [nodeAt, children_setChildren]
                      rw [List.get?_set_eq_of_lt _ hlt, hget]
                      exact h3 p' hp'
                    · simp only [nodeAt, children_setChildren]
                      rw [List.get?_set_ne _ _ (fun hc => hji hc.symm)]

/-- `updPath` version of `ftpUpdF_resolve`, through the preprocessing of
`filetype_from_path`. -/
theorem updPath_resolve (f : FNode → FNode) (root : FNode) (path : Str) (tgt : FNode)
    (hres : filetype_from_path root path = .ok (some tgt)) :
    ∃ ip : List Nat,
      nodeAt root ip = some tgt ∧
      nodeAt (updPath root path f) ip = some (f tgt) ∧
      ∀ p, (∀ q : List Nat, p ≠ ip ++ q) →
        (nodeAt (updPath root path f) p).map FNode.shallow =
          (nodeAt root p).map FNode.shallow := by
  unfold filetype_from_path at hres
  unfold updPath
  by_cases hroot : path = [slash]
  · rw [if_pos hroot] at hres ⊢
    have htgt : root = tgt := by
      injection hres with h
      injection h
    subst htgt
    refine ⟨[], rfl, rfl, ?_⟩
    intro p hp
    have h := hp p
    simp at h
  · rw [if_neg hroot] at hres ⊢
    by_cases hhead : path.headD 0 ≠ slash
    · rw [if_pos hhead] at hres; cases hres
    · rw [if_neg hhead] at hres
      have hloop :
          ftpLoop root
            (if (path.drop 1).getLast? = some slash then (path.drop 1).dropLast
             else path.drop 1) = some tgt := by
        injection hres
      exact ftpUpdF_resolve f _ _ root tgt hloop

end FS

/-- C8: for every entry resolvable at `old_path`, `myrename` overwrites in
place only that entry's `name` (with the last segment of `new_path`) and
`path` (with the full `new_path`); the renamed entry keeps its children
and every other field, it stays at the same index path (in particular at
the same position of its original parent's child list), and every other
entry in the tree keeps all its node-local fields and child count. -/
theorem c8_rename_overwrites_only_name_and_path (root : FS.FNode) (src dst : FS.Str)
    (tgt : FS.FNode)
    (hres : FS.filetype_from_path root src = .ok (some tgt))
    (hdst : FS.slash ∈ dst) :
    ∃ (root' : FS.FNode) (ip : List Nat),
      FS.myrename root src dst = .ok (0, root') ∧
      FS.nodeAt root ip = some tgt ∧
      FS.nodeAt root' ip = some (tgt.setNamePath (FS.afterLastSlash dst) dst) ∧
      (tgt.setNamePath (FS.afterLastSlash dst) dst).name = FS.afterLastSlash dst ∧
      (tgt.setNamePath (FS.afterLastSlash dst) dst).path = dst ∧
      (tgt.setNamePath (FS.afterLastSlash dst) dst).children = tgt.children ∧
      (tgt.setNamePath (FS.afterLastSlash dst) dst).valid = tgt.valid ∧
      (tgt.setNamePath (FS.afterLastSlash dst) dst).ftype = tgt.ftype ∧
      (tgt.setNamePath (FS.afterLastSlash dst) dst).size = tgt.size ∧
      (tgt.setNamePath (FS.afterLastSlash dst) dst).blocks = tgt.blocks ∧
      (tgt.setNamePath (FS.afterLastSlash dst) dst).datablocks = tgt.datablocks ∧
      (tgt.setNamePath (FS.afterLastSlash dst) dst).num_links = tgt.num_links ∧
      ∀ p, p ≠ ip →
        (FS.nodeAt root' p).map FS.FNode.shallow =
          (FS.nodeAt root p).map FS.FNode.shallow := by
  obtain ⟨ip, h1, h2, h3⟩ :=
    FS.updPath_resolve (fun n => n.setNamePath (FS.afterLastSlash dst) dst) root src tgt hres
  refine ⟨FS.updPath root src (fun n => n.setNamePath (FS.afterLastSlash dst) dst), ip,
    ?_, h1, h2, by cases tgt; rfl, by cases tgt; rfl, by cases tgt; rfl, by cases tgt; rfl,
    by cases tgt; rfl, by cases tgt; rfl, by cases tgt; rfl, by cases tgt; rfl,
    by cases tgt; rfl, ?_⟩
  · unfold FS.myrename
    rw [hres, if_pos hdst]
  · intro p hp
    by_cases hext : ∃ q : List Nat, p = ip ++ q
    · obtain ⟨q, rfl⟩ := hext
      have hq : q ≠ [] := fun h => hp (by simp [h])
      rw [FS.nodeAt_append, FS.nodeAt_append, h1, h2]
      simp only [Option.some_bind]
      rw [FS.nodeAt_setNamePath tgt _ _ q hq]
    · exact h3 p (fun q hq => hext ⟨q, hq⟩)

/-- Witness for C8: renaming `/a` to `/b` in a concrete one-file tree. -/
theorem c8_witness :
    FS.filetype_from_path FS.demoRoot1 [FS.slash, 97] = .ok (some FS.demoFile) ∧
    FS.slash ∈ [FS.slash, 98] ∧
    ∃ (root' : FS.FNode) (ip : List Nat),
      FS.myrename FS.demoRoot1 [FS.slash, 97] [FS.slash, 98] = .ok (0, root') ∧
      FS.nodeAt FS.demoRoot1 ip = some FS.demoFile := by
  refine ⟨by rfl, by decide, ?_⟩
  obtain ⟨root', ip, hmy, hat, -⟩ :=
    c8_rename_overwrites_only_name_and_path FS.demoRoot1 [FS.slash, 97] [FS.slash, 98]
      FS.demoFile (by rfl) (by decide)
  exact ⟨root', ip, hmy, hat⟩

namespace FS

/-- Demo tree for C9: the file `/d/f`. -/
def c9file : FNode :=
  .mk 1 [slash, 100, slash, 102] [102] fileT 0 0 (List.replicate 16 1) 0 []

/-- Demo tree for C9: the directory `/d` holding one file. -/
def c9dirFull : FNode := .mk 1 [slash, 100] [100] dirT 0 0 [] 2 [c9file]

/-- Demo tree for C9: a root whose only child is the non-empty `/d`. -/
def c9rootFull : FNode := .mk 1 [slash] [slash] dirT 0 0 [] 2 [c9dirFull]

/-- Demo tree for C9: the empty directory `/d`. -/
def c9dirEmpty : FNode := .mk 1 [slash, 100] [100] dirT 0 0 [] 2 []

/-- Demo tree for C9: a root whose only child is the empty `/d`. -/
def c9rootEmpty : FNode := .mk 1 [slash] [slash] dirT 0 0 [] 2 [c9dirEmpty]

/-- A successful `findIdx?` designates an element satisfying the
predicate. -/
theorem findIdx?_get? {α : Type} (p : α → Bool) (l : List α) (i : Nat)
    (h : l.findIdx? p = some i) : ∃ x, l.get? i = some x ∧ p x = true := by
  induction l generalizing i with
  | nil => cases h
  | cons a t ih =>
      rw [List.findIdx?_cons] at h
      by_cases ha : p a
      · simp [ha] at h
        subst h
        exact ⟨a, rfl, ha⟩
      · simp [ha] at h
        obtain ⟨j, hj, rfl⟩ := h
        obtain ⟨x, hx, hp⟩ := ih j hj
        exact ⟨x, by simpa using hx, hp⟩

end FS

/-- C9: behaviour of `rmdir`.  With the path split at its last `/` into a
parent path (empty ⇒ `"/"`) and a target name: an unresolvable parent
gives the not-found error; a parent without a child of that name gives the
not-found error; a first name match (at child index `i`) that has children
gives the not-empty error with the tree unchanged; and a childless match
is spliced out of the parent's child sequence — the new sequence is
exactly `take i ++ drop (i+1)` of the old (remaining siblings in their
relative order), every entry off the parent's index path keeps all its
node-local fields, and the operation returns 0. -/
theorem c9_rmdir_not_found_not_empty_and_splice (root : FS.FNode) (path : FS.Str)
    (hsl : FS.slash ∈ path) :
    (FS.filetype_from_path root
        (if (FS.beforeLastSlash path).length = 0 then [FS.slash]
         else FS.beforeLastSlash path) = .ok none →
      FS.myrmdir root path = .ok (FS.eNOENT, root)) ∧
    ∀ P : FS.FNode,
      FS.filetype_from_path root
          (if (FS.beforeLastSlash path).length = 0 then [FS.slash]
           else FS.beforeLastSlash path) = .ok (some P) →
      (P.children.findIdx? (fun ch => ch.name == FS.afterLastSlash path) = none →
        FS.myrmdir root path = .ok (FS.eNOENT, root)) ∧
      ∀ i : Nat,
        P.children.findIdx? (fun ch => ch.name == FS.afterLastSlash path) = some i →
        ((P.children.getD i P).children ≠ [] →
          FS.myrmdir root path = .ok (FS.eNOTEMPTY, root)) ∧
        ((P.children.getD i P).children = [] →
          ∃ (root' : FS.FNode) (pip : List Nat),
            FS.myrmdir root path = .ok (0, root') ∧
            FS.nodeAt root pip = some P ∧
            FS.nodeAt root' pip = some (P.setChildren (P.children.eraseIdx i)) ∧
            P.children.eraseIdx i = P.children.take i ++ P.children.drop (i + 1) ∧
            ∀ p, (∀ q : List Nat, p ≠ pip ++ q) →
              (FS.nodeAt root' p).map FS.FNode.shallow =
                (FS.nodeAt root p).map FS.FNode.shallow) := by
  constructor
  · intro hnone
    unfold FS.myrmdir
    simp only [if_pos hsl, hnone]
  · intro P hres
    constructor
    · intro hidx
      unfold FS.myrmdir
      simp only [if_pos hsl, hres]
      by_cases hlen : P.children.length = 0
      · simp only [if_pos hlen]
      · simp only [if_neg hlen, hidx]
    · intro i hidx
      have hlen : ¬ P.children.length = 0 := by
        obtain ⟨x, hx, -⟩ := FS.findIdx?_get? _ _ _ hidx
        have := FS.lt_of_get?_eq_some hx
        omega
      constructor
      · intro hne
        unfold FS.myrmdir
        simp only [if_pos hsl, hres, if_neg hlen, hidx]
        rw [if_pos (by simpa [List.length_eq_zero] using hne)]
      · intro hempty
        obtain ⟨pip, h1, h2, h3⟩ :=
          FS.updPath_resolve (fun p => p.setChildren (p.children.eraseIdx i)) root
            (if (FS.beforeLastSlash path).length = 0 then [FS.slash]
             else FS.beforeLastSlash path) P hres
        refine ⟨_, pip, ?_, h1, h2, List.eraseIdx_eq_take_drop_succ _ _, h3⟩
        unfold FS.myrmdir
        simp only [if_pos hsl, hres, if_neg hlen, hidx]
        rw [if_neg (by simpa using hempty)]

/-- Witness for C9 at the spec's own test scenario: `rmdir` on `/d`
containing one file returns not-empty and leaves the tree unchanged;
after the file is gone, the same `rmdir` splices `/d` out of the root. -/
theorem c9_witness :
    FS.myrmdir FS.c9rootFull [FS.slash, 100] = .ok (FS.eNOTEMPTY, FS.c9rootFull) ∧
    ∃ (root' : FS.FNode) (pip : List Nat),
      FS.myrmdir FS.c9rootEmpty [FS.slash, 100] = .ok (0, root') ∧
      FS.nodeAt FS.c9rootEmpty pip = some FS.c9rootEmpty ∧
      FS.nodeAt root' pip =
        some (FS.c9rootEmpty.setChildren (FS.c9rootEmpty.children.eraseIdx 0)) := by
  constructor
  · have h := c9_rmdir_not_found_not_empty_and_splice FS.c9rootFull [FS.slash, 100]
      (by decide)
    exact (((h.2 FS.c9rootFull (by rfl)).2 0 (by rfl)).1
      (fun hc => List.noConfusion (show ([FS.c9file] : List FS.FNode) = [] from hc)))
  · have h := c9_rmdir_not_found_not_empty_and_splice FS.c9rootEmpty [FS.slash, 100]
      (by decide)
    obtain ⟨root', pip, hrm, hat, hat', -, -⟩ :=
      (((h.2 FS.c9rootEmpty (by rfl)).2 0 (by rfl)).2 (by rfl))
    exact ⟨root', pip, hrm, hat, hat'⟩

namespace FS

theorem writeQ_append (q : List FNode) (x : FNode) :
    writeQ q q.length x = q ++ [x] := by
  simp [writeQ]

theorem enqChildren_eq (front : Nat) :
    ∀ (cs q : List FNode) (rear : Nat), rear = q.length → front ≤ rear →
      enqChildren front q rear cs = (q ++ cs, rear + cs.length) := by
  intro cs
  induction cs with
  | nil => intro q rear h1 h2; simp [enqChildren]
  | cons c cs' ih =>
      intro q rear h1 h2
      simp only [enqChildren]
      rw [if_neg (by omega)]
      subst h1
      rw [writeQ_append]
      rw [ih (q ++ [c]) (q.length + 1) (by simp) (by omega)]
      have hl : q ++ [c] ++ cs' = q ++ c :: cs' := by simp
      rw [hl]
      have hn : q.length + 1 + cs'.length = q.length + (c :: cs').length := by
        simp
        omega
      rw [hn]

theorem enqChildren_first (t c : FNode) (cs : List FNode) :
    enqChildren 1 [t] 0 (c :: cs) = (t :: c :: cs, 2 + cs.length) := by
  simp only [enqChildren]
  rw [if_pos (by omega)]
  rw [show writeQ [t] 1 c = [t, c] from by simp [writeQ]]
  rw [enqChildren_eq 1 cs [t, c] 2 (by simp) (by omega)]
  simp

theorem enqPad_eq :
    ∀ (k : Nat) (q : List FNode) (rear : Nat), rear = q.length →
      enqPad q rear k = (q ++ List.replicate k wasteNode, rear + k) := by
  intro k
  induction k with
  | zero => intro q rear h; simp [enqPad]
  | succ k ih =>
      intro q rear h
      simp only [enqPad]
      subst h
      rw [writeQ_append]
      rw [ih (q ++ [wasteNode]) (q.length + 1) (by simp)]
      have hl : q ++ [wasteNode] ++ List.replicate k wasteNode
          = q ++ List.replicate (k + 1) wasteNode := by
        simp [List.replicate_succ]
      rw [hl]
      have hn : q.length + 1 + k = q.length + (k + 1) := by omega
      rw [hn]

theorem t2a_enq_step (fuel k : Nat) (q : List FNode) (arr : Nat → FNode)
    (hk1 : 1 ≤ k) (hk4 : k ≤ 4) (hlen : k + 1 ≤ q.length) :
    tree_to_array (fuel + 1) ⟨q, k, q.length, k, arr⟩ =
      tree_to_array fuel ⟨q ++ grp (q.getD k undefNode), k + 1,
        q.length + (grp (q.getD k undefNode)).length, k + 1,
        fun j => if j = k then q.getD k undefNode else arr j⟩ := by
  simp only [tree_to_array]
  rw [if_neg (by omega), if_pos (by omega)]
  by_cases hv : (q.getD k undefNode).valid ≠ 0
  · rw [if_pos hv]
    rw [enqChildren_eq (k + 1) ((q.getD k undefNode).children) q q.length rfl (by omega)]
    simp only []
    rw [enqPad_eq (5 - (q.getD k undefNode).children.length)
          (q ++ (q.getD k undefNode).children)
          (q.length + (q.getD k undefNode).children.length) (by simp)]
    rw [show (q ++ (q.getD k undefNode).children) ++
          List.replicate (5 - (q.getD k undefNode).children.length) wasteNode =
          q ++ grp (q.getD k undefNode) from by
        rw [grp, if_pos hv, padTo5, List.append_assoc]]
    rw [show q.length + (q.getD k undefNode).children.length +
          (5 - (q.getD k undefNode).children.length) =
          q.length + (grp (q.getD k undefNode)).length from by
        rw [grp, if_pos hv, padTo5]
        simp only [List.length_append, List.length_replicate]
        omega]
  · rw [if_neg hv]
    rw [enqPad_eq 5 q q.length rfl]
    rw [show q ++ List.replicate 5 wasteNode = q ++ grp (q.getD k undefNode) from by
        rw [grp, if_neg hv]]
    rw [show q.length + 5 = q.length + (grp (q.getD k undefNode)).length from by
        rw [grp, if_neg hv]
        simp]

end FS

namespace FS

theorem t2a_call1 (fuel : Nat) (t : FNode) (arr : Nat → FNode)
    (hv : t.valid = 1) (hc1 : 1 ≤ t.children.length) (hc5 : t.children.length ≤ 5) :
    tree_to_array (fuel + 1) ⟨[t], 0, 0, 0, arr⟩ =
      tree_to_array fuel ⟨t :: padTo5 t.children, 1, 6, 1,
        fun j => if j = 0 then t else arr j⟩ := by
  obtain ⟨c, cs, hcs⟩ : ∃ c cs, t.children = c :: cs := by
    cases hcs : t.children with
    | nil => rw [hcs] at hc1; simp at hc1
    | cons c cs => exact ⟨c, cs, rfl⟩
  rw [hcs] at hc5
  simp only [List.length_cons] at hc5
  simp only [tree_to_array, List.getD_cons_zero]
  rw [if_neg (by omega), if_pos (by omega), if_pos (by simp [hv])]
  rw [hcs]
  rw [enqChildren_first t c cs]
  simp only []
  rw [enqPad_eq (5 - (c :: cs).length) (t :: c :: cs) (2 + cs.length)
        (by simp; omega)]
  rw [show 2 + cs.length + (5 - (c :: cs).length) = 6 from by
      simp only [List.length_cons]
      omega]
  rw [show (t :: c :: cs) ++ List.replicate (5 - (c :: cs).length) wasteNode =
        t :: padTo5 (c :: cs) from by simp [padTo5]]

theorem t2a_copy (fuel : Nat) :
    ∀ (k r : Nat) (q : List FNode) (arr : Nat → FNode), 5 ≤ k → 31 ≤ k + fuel →
      ∀ j, j ≤ 30 →
        (tree_to_array fuel ⟨q, k, r, k, arr⟩).arr j =
          if k ≤ j then q.getD j undefNode else arr j := by
  induction fuel with
  | zero =>
      intro k r q arr h5 h31 j hj
      simp only [tree_to_array]
      rw [if_neg (by omega)]
  | succ fuel ih =>
      intro k r q arr h5 h31 j hj
      simp only [tree_to_array]
      by_cases hk : k > 30
      · rw [if_pos hk]
        rw [if_neg (by omega)]
      · rw [if_neg hk]
        rw [if_neg (by omega : ¬ (k + 1 < 6))]
        have := ih (k + 1) r q
            (fun j' => if j' = k then q.getD k undefNode else arr j')
            (by omega) (by omega) j hj
        rw [this]
        by_cases h1 : k + 1 ≤ j
        · rw [if_pos h1, if_pos (by omega)]
        · rw [if_neg h1]
          simp only []
          by_cases h2 : j = k
          · rw [if_pos h2, if_pos (by omega), h2]
          · rw [if_neg h2, if_neg (by omega)]

theorem list_len5 {α : Type} (l : List α) (h : l.length = 5) :
    ∃ a b c d e, l = [a, b, c, d, e] := by
  rcases l with _ | ⟨a, _ | ⟨b, _ | ⟨c, _ | ⟨d, _ | ⟨e, _ | ⟨f, r⟩⟩⟩⟩⟩⟩ <;>
    simp only [List.length_nil, List.length_cons] at h <;> try omega
  exact ⟨a, b, c, d, e, rfl⟩

end FS

set_option maxRecDepth 40000 in
/-- C4 (amended): for every tree rooted at a valid root entry with
between one and five root children, the flatten pass fills slot 0 with
the root and slots 1..30 with the final queue contents `qFinal`: slots
1..5 the root's children padded to five entries, then — because padding
runs only while the output index is below 6 — the contributions of the
first *four* level-1 slots only, each padded to (at least) five entries;
the fifth level-1 slot's children are never enqueued and trailing slots
read unwritten queue memory (`undefNode`). -/
theorem c4_flatten_layout_amended (t : FS.FNode) (hv : t.valid = 1)
    (hc1 : 1 ≤ t.children.length) (hc5 : t.children.length ≤ 5) :
    ∀ j, j ≤ 30 → FS.flattenRoot t j = (FS.qFinal t).getD j FS.undefNode := by
  intro j hj
  unfold FS.flattenRoot
  rw [show (40 : Nat) = 39 + 1 from rfl, FS.t2a_call1 39 t _ hv hc1 hc5]
  have hlen5 : (FS.padTo5 t.children).length = 5 := by
    simp [FS.padTo5]
    omega
  obtain ⟨e0, e1, e2, e3, e4, hpad⟩ := FS.list_len5 _ hlen5
  rw [hpad]
  rw [show (6 : Nat) = ([t, e0, e1, e2, e3, e4] : List FS.FNode).length from rfl]
  rw [show (39 : Nat) = 38 + 1 from rfl]
  rw [FS.t2a_enq_step 38 1 [t, e0, e1, e2, e3, e4] _ (by omega) (by omega) (by simp)]
  rw [show ([t, e0, e1, e2, e3, e4] : List FS.FNode).getD 1 FS.undefNode = e0 from rfl]
  rw [← List.length_append [t, e0, e1, e2, e3, e4] (FS.grp e0)]
  rw [show (38 : Nat) = 37 + 1 from rfl]
  rw [FS.t2a_enq_step 37 2 ([t, e0, e1, e2, e3, e4] ++ FS.grp e0) _ (by omega) (by omega)
        (by simp)]
  rw [show ([t, e0, e1, e2, e3, e4] ++ FS.grp e0).getD 2 FS.undefNode = e1 from by
      rw [List.getD_append _ _ _ _ (by simp)]
      rfl]
  rw [← List.length_append ([t, e0, e1, e2, e3, e4] ++ FS.grp e0) (FS.grp e1)]
  rw [show (37 : Nat) = 36 + 1 from rfl]
  rw [FS.t2a_enq_step 36 3 (([t, e0, e1, e2, e3, e4] ++ FS.grp e0) ++ FS.grp e1) _
        (by omega) (by omega) (by simp)]
  rw [show (([t, e0, e1, e2, e3, e4] ++ FS.grp e0) ++ FS.grp e1).getD 3 FS.undefNode = e2
      from by
      rw [List.getD_append _ _ _ _ (by simp)]
      rw [List.getD_append _ _ _ _ (by simp)]
      rfl]
  rw [← List.length_append (([t, e0, e1, e2, e3, e4] ++ FS.grp e0) ++ FS.grp e1) (FS.grp e2)]
  rw [show (36 : Nat) = 35 + 1 from rfl]
  rw [FS.t2a_enq_step 35 4 ((([t, e0, e1, e2, e3, e4] ++ FS.grp e0) ++ FS.grp e1) ++ FS.grp e2)
        _ (by omega) (by omega) (by simp)]
  rw [show ((([t, e0, e1, e2, e3, e4] ++ FS.grp e0) ++ FS.grp e1) ++ FS.grp e2).getD 4
        FS.undefNode = e3 from by
      rw [List.getD_append _ _ _ _ (by simp)]
      rw [List.getD_append _ _ _ _ (by simp)]
      rw [List.getD_append _ _ _ _ (by simp)]
      rfl]
  rw [← List.length_append ((([t, e0, e1, e2, e3, e4] ++ FS.grp e0) ++ FS.grp e1) ++ FS.grp e2)
        (FS.grp e3)]
  rw [FS.t2a_copy 35 5 _ _ _ (by omega) (by omega) j hj]
  rw [FS.qFinal, hpad]
  by_cases h5j : 5 ≤ j
  · rw [if_pos h5j]
    rw [show ((((([t, e0, e1, e2, e3, e4] : List FS.FNode) ++ FS.grp e0) ++ FS.grp e1)
          ++ FS.grp e2) ++ FS.grp e3) =
        [t] ++ [e0, e1, e2, e3, e4] ++ (([e0, e1, e2, e3, e4].take 4).map FS.grp).join
      from by simp [List.join]]
  · rw [if_neg h5j]
    interval_cases j <;> rfl


/-- C4 counterexample: on the tree with root children `A` (one child `X`)
and `B` (one child `Y`), the claim's breadth-first-without-padding layout
puts `Y` at slot 7, but the code pads `A`'s contribution to five queue
slots, so slot 7 of `file_array` is an invalid padding entry. -/
theorem c4_counterexample_slot7 : ¬ FS.c4claim FS.c4T := by
  intro h
  have h7 := h 7 (by decide) (by decide)
  exact absurd (congrArg FS.FNode.valid h7) (by decide)

/-- Witness for the amended C4 at the concrete counterexample tree. -/
theorem c4_witness :
    (FS.c4T.valid = 1 ∧ 1 ≤ FS.c4T.children.length ∧ FS.c4T.children.length ≤ 5) ∧
    FS.flattenRoot FS.c4T 7 = (FS.qFinal FS.c4T).getD 7 FS.undefNode :=
  ⟨⟨rfl, by decide, by decide⟩,
   c4_flatten_layout_amended FS.c4T rfl (by decide) (by decide) 7 (by decide)⟩
